import Mathlib

/-!
Verification development for the SmartSales lead-qualification pipeline
(`core.py`). The Python code is shallowly embedded: dictionaries become
functional maps, the in-memory CRM and memory bank become explicit state,
thread-based fan-out becomes quantification over processing orders, and
Python `float` division in the evaluation metrics is modelled over `ℚ`.
Wall-clock timestamps attached to memory-bank events are abstracted away;
everything else follows the source line by line.
-/

/-- Values stored in a CRM record (`CRMTool.db` entries hold ints, strings
and booleans for the fields the pipeline writes: score, status,
followup_due). -/
inductive Value where
  | int (n : Int)
  | str (s : String)
  | bool (b : Bool)
deriving DecidableEq, Repr

/-- A CRM record: a Python dict from field name to value. -/
def Record := String → Option Value

/-- The empty record, what `CRMTool.get` returns for an absent id. -/
def emptyRecord : Record := fun _ => none

/-- The CRM database: `CRMTool.db`, a dict from lead id to record. -/
def DB := String → Option Record

/-- The empty CRM database (`CRMTool.__init__`). -/
def emptyDB : DB := fun _ => none

/-- Python dict merge `\x7b**old, **new\x7d`: the new payload wins per key,
other keys keep their old value. -/
def mergeRecord (old new : Record) : Record := fun k =>
  match new k with
  | some v => some v
  | none => old k

/-- `CRMTool.upsert`: `self.db[lead_id] = \x7b**self.db.get(lead_id, \x7b\x7d), **payload\x7d`. -/
def CRMTool.upsert (db : DB) (lead_id : String) (payload : Record) : DB :=
  fun j => if j = lead_id then some (mergeRecord ((db lead_id).getD emptyRecord) payload) else db j

/-- `CRMTool.get`: `self.db.get(lead_id, \x7b\x7d)`. -/
def CRMTool.get (db : DB) (lead_id : String) : Record :=
  (db lead_id).getD emptyRecord

/-- An enrichment result (`CompanyEnricherTool.run` return value). -/
structure Enriched where
  website : String
  industry : String
  employee_count : Int
  tech_stack : List String
  recent_news : String
deriving DecidableEq, Repr

/-- A qualification result (`QualificationAgent.score` return value). -/
structure QualResult where
  score : Int
  reasons : List String
deriving DecidableEq, Repr

/-- Events appended to the memory bank; the `time.time()` timestamp the code
attaches is abstracted away (no claim depends on its value). -/
inductive Event where
  | enriched (e : Enriched)
  | qualification (q : QualResult)
  | followup (note : String)
deriving DecidableEq, Repr

/-- The memory bank: `MemoryBank.mem`, lead id to its list of events
(`self.mem.get(lead_id, [])` semantics: absent means empty). -/
def Mem := String → List Event

/-- The empty memory bank (`MemoryBank.__init__`). -/
def emptyMem : Mem := fun _ => []

/-- `MemoryBank.write`: `self.mem.setdefault(lead_id, []).append(record)`. -/
def MemoryBank.write (mem : Mem) (lead_id : String) (record : Event) : Mem :=
  fun j => if j = lead_id then mem lead_id ++ [record] else mem j

/-- Python `needle in hay` on strings: substring containment. -/
def strContains (hay needle : String) : Bool :=
  (List.range (hay.length + 1)).any fun i => needle.data.isPrefixOf (hay.data.drop i)

/-- Python `str.lower()` (ASCII case folding suffices for the inputs here). -/
def lowerStr (s : String) : String := String.mk (s.data.map Char.toLower)

/-- A lead dict. The identifier is required (the code indexes `lead["id"]`
directly; the data model declares it unique and required); every other field
is read with `lead.get(...)` defaults, so it is optional. Enrichment fields
(`industry`, `employee_count`, `tech_stack`, `recent_news`) appear after the
`\x7b**lead, **enriched\x7d` merge. -/
structure Lead where
  id : String
  company_name : Option String := none
  contact_name : Option String := none
  contact_email : Option String := none
  website : Option String := none
  notes : Option String := none
  industry : Option String := none
  employee_count : Option Int := none
  tech_stack : Option (List String) := none
  recent_news : Option String := none
deriving DecidableEq, Repr

/-- `CompanyEnricherTool.run`: simulated enrichment, line by line. -/
def CompanyEnricherTool.run (lead : Lead) : Enriched :=
  { website := lead.website.getD ""
    industry := if strContains (lowerStr (lead.company_name.getD "")) "fin" then "FinTech" else "SaaS"
    employee_count :=
      if strContains (lead.notes.getD "") "Series A" then 75
      else if strContains (lead.notes.getD "") "Scale-up" then 120 else 12
    tech_stack := if strContains (lead.company_name.getD "") "Data" then ["Python", "Postgres"] else ["Node.js"]
    recent_news := lead.notes.getD "" }

/-- The merge `\x7b**lead, **enriched\x7d` in `OrchestrationAgent.handle_batch`:
the enriched dict contributes exactly the five enrichment keys, which
overwrite; all other lead keys survive. -/
def combine (lead : Lead) (e : Enriched) : Lead :=
  { lead with
    website := some e.website
    industry := some e.industry
    employee_count := some e.employee_count
    tech_stack := some e.tech_stack
    recent_news := some e.recent_news }

/-- `llm_reasoning_prompt`: deterministic simulated LLM response. -/
def llm_reasoning_prompt (prompt : String) : String :=
  if strContains (lowerStr prompt) "qualification" then
    "LLM: lead looks promising due to funding and tech-stack match."
  else "LLM: default reasoning."

/-- One scoring rule of `QualificationAgent.score`: when the predicate holds,
`score += pts; reasons.append(reason)`, otherwise no change. -/
def applyRule (cond : Prop) [Decidable cond] (pts : Int) (reason : String)
    (acc : Int × List String) : Int × List String :=
  if cond then (acc.1 + pts, acc.2 ++ [reason]) else acc

/-- The pure part of `QualificationAgent.score`: the three rules in source
order, then the simulated LLM reason, then `score = min(100, score)`. -/
def qualificationScore (lead : Lead) : QualResult :=
  let acc : Int × List String := (0, [])
  let acc := applyRule (lead.employee_count.getD 0 ≥ 50) 30 "Team size >= 50" acc
  let acc := applyRule (strContains (lead.industry.getD "") "FinTech") 25 "Industry match: FinTech" acc
  let acc := applyRule (strContains (lead.recent_news.getD "") "Series A") 20 "Funding signal: Series A" acc
  { score := min 100 acc.1
    reasons := acc.2 ++ [llm_reasoning_prompt "qualification reasoning for lead"] }

/-- The CRM payload written by `QualificationAgent.score`:
`\x7b"score": score, "status": "qualified" if score>50 else "nurture"\x7d`. -/
def scorePayload (q : QualResult) : Record := fun k =>
  if k = "score" then some (.int q.score)
  else if k = "status" then some (.str (if q.score > 50 then "qualified" else "nurture"))
  else none

/-- `QualificationAgent.score` with its side effects: returns the result and
the updated CRM and memory bank. -/
def QualificationAgent.score (db : DB) (mem : Mem) (lead : Lead) : QualResult × DB × Mem :=
  let result := qualificationScore lead
  (result,
   CRMTool.upsert db lead.id (scorePayload result),
   MemoryBank.write mem lead.id (.qualification result))

/-- Reading back the upserted id sees the merge of the old record with the
payload, payload winning per key. -/
theorem get_upsert_self (db : DB) (id : String) (p : Record) (k : String) :
    CRMTool.get (CRMTool.upsert db id p) id k = (p k).or (CRMTool.get db id k) := by
  simp only [CRMTool.get, CRMTool.upsert, eq_self_iff_true, if_true, Option.getD_some, mergeRecord]
  cases hp : p k <;> simp

/-- C6: `upsert` merges the partial record into the existing one: keys of the
payload land with the payload's value, keys not in the payload keep their old
value, and no pre-existing key is ever deleted. -/
theorem upsert_merges_and_never_deletes (db : DB) (id : String) (payload : Record) :
    (∀ k v, payload k = some v → CRMTool.get (CRMTool.upsert db id payload) id k = some v)
    ∧ (∀ k, payload k = none → CRMTool.get (CRMTool.upsert db id payload) id k = CRMTool.get db id k)
    ∧ (∀ k, (CRMTool.get db id k).isSome → (CRMTool.get (CRMTool.upsert db id payload) id k).isSome) := by
  refine ⟨fun k v hv => ?_, fun k hk => ?_, fun k hk => ?_⟩ <;> rw [get_upsert_self]
  · rw [hv]; rfl
  · rw [hk]; exact Option.none_or
  · cases hp : payload k <;> simp [hp, hk]

/-- C6 witness: at a concrete store holding `\x7bscore: 1\x7d` for `L1` and the
payload `\x7bstatus: "x"\x7d`, the payload key lands, the untouched key keeps its
value, and the pre-existing key is still present. -/
theorem upsert_merges_and_never_deletes_witness :
    (fun k => if k = "status" then some (Value.str "x") else none : Record) "status" = some (.str "x")
    ∧ CRMTool.get (CRMTool.upsert
        (CRMTool.upsert emptyDB "L1" (fun k => if k = "score" then some (.int 1) else none))
        "L1" (fun k => if k = "status" then some (.str "x") else none)) "L1" "status" = some (.str "x")
    ∧ CRMTool.get (CRMTool.upsert
        (CRMTool.upsert emptyDB "L1" (fun k => if k = "score" then some (.int 1) else none))
        "L1" (fun k => if k = "status" then some (.str "x") else none)) "L1" "score" = some (.int 1) :=
  ⟨rfl,
   (upsert_merges_and_never_deletes
      (CRMTool.upsert emptyDB "L1" (fun k => if k = "score" then some (.int 1) else none))
      "L1" (fun k => if k = "status" then some (.str "x") else none)).1 "status" (.str "x") rfl,
   ((upsert_merges_and_never_deletes
      (CRMTool.upsert emptyDB "L1" (fun k => if k = "score" then some (.int 1) else none))
      "L1" (fun k => if k = "status" then some (.str "x") else none)).2.1 "score" rfl).trans rfl⟩

/-- The record persisted by `QualificationAgent.score` maps `status` to
`"qualified"` when the computed score exceeds 50, else `"nurture"`. -/
theorem score_db_status (db : DB) (mem : Mem) (lead : Lead) :
    CRMTool.get (QualificationAgent.score db mem lead).2.1 lead.id "status"
      = some (.str (if (qualificationScore lead).score > 50 then "qualified" else "nurture")) := by
  show CRMTool.get (CRMTool.upsert db lead.id (scorePayload (qualificationScore lead))) lead.id
      "status" = _
  rw [get_upsert_self]
  rfl

/-- The record persisted by `QualificationAgent.score` maps `score` to the
computed score. -/
theorem score_db_score (db : DB) (mem : Mem) (lead : Lead) :
    CRMTool.get (QualificationAgent.score db mem lead).2.1 lead.id "score"
      = some (.int (qualificationScore lead).score) := by
  show CRMTool.get (CRMTool.upsert db lead.id (scorePayload (qualificationScore lead))) lead.id
      "score" = _
  rw [get_upsert_self]
  rfl

/-- C1: after `QualificationAgent.score(lead)` runs, the CRM record for the
lead's id holds `status = "qualified"` iff the `score` value it holds is
strictly greater than 50 (so a score of exactly 50 yields `"nurture"`). -/
theorem score_status_qualified_iff (db : DB) (mem : Mem) (lead : Lead) :
    CRMTool.get (QualificationAgent.score db mem lead).2.1 lead.id "status"
        = some (.str "qualified")
      ↔ ∃ s : Int,
          CRMTool.get (QualificationAgent.score db mem lead).2.1 lead.id "score"
            = some (.int s) ∧ 50 < s := by
  rw [score_db_status db mem lead, score_db_score db mem lead]
  constructor
  · intro h
    by_cases hq : (qualificationScore lead).score > 50
    · exact ⟨(qualificationScore lead).score, rfl, hq⟩
    · rw [if_neg hq] at h
      exact absurd h (by decide)
  · rintro ⟨s, hs, hgt⟩
    have hse : (qualificationScore lead).score = s := by
      have h1 := Option.some.inj hs
      exact Value.int.inj h1
    rw [if_pos (by rw [hse]; exact hgt)]

/-- C2: the qualification score is `min(100, s)` where `s` sums exactly the
fired rule contributions (+30 for employee count at least 50, +25 for a
FinTech industry match, +20 for a Series A funding signal, absent fields
defaulting to 0 or the empty string), the reasons are one string per fired
rule in rule order followed by the supplementary LLM string, and the score
always lies in [0, 100]. -/
theorem qualificationScore_rule_sum (lead : Lead) :
    (qualificationScore lead).score =
        min 100 ((if lead.employee_count.getD 0 ≥ 50 then (30 : Int) else 0)
          + (if strContains (lead.industry.getD "") "FinTech" then (25 : Int) else 0)
          + (if strContains (lead.recent_news.getD "") "Series A" then (20 : Int) else 0))
      ∧ (qualificationScore lead).reasons =
        ((if lead.employee_count.getD 0 ≥ 50 then ["Team size >= 50"] else [])
          ++ (if strContains (lead.industry.getD "") "FinTech" then ["Industry match: FinTech"] else [])
          ++ (if strContains (lead.recent_news.getD "") "Series A" then ["Funding signal: Series A"] else []))
        ++ [llm_reasoning_prompt "qualification reasoning for lead"]
      ∧ 0 ≤ (qualificationScore lead).score ∧ (qualificationScore lead).score ≤ 100 := by
  by_cases h1 : lead.employee_count.getD 0 ≥ 50 <;>
    by_cases h2 : strContains (lead.industry.getD "") "FinTech" = true <;>
      by_cases h3 : strContains (lead.recent_news.getD "") "Series A" = true <;>
        refine ⟨?_, ?_, ?_, ?_⟩ <;>
          simp [qualificationScore, applyRule, h1, h2, h3]

/-- The demo lead L1 from the scenario (`core.py` fallback demo data). -/
def l1demo : Lead := { id := "L1", company_name := some "AcmePay", notes := some "Series A" }

/-- L1 after enrichment and the batch merge. -/
def l1enriched : Lead := combine l1demo (CompanyEnricherTool.run l1demo)

/-- C8: for lead L1 (AcmePay, Series A), enrichment classifies the industry
as SaaS (no case-insensitive `fin` substring in `AcmePay`), assigns the
Series A employee-count bucket (75), and scoring yields 50 (at least 20,
from the funding-signal rule), which is at most 50, so the persisted status
is `"nurture"`. -/
theorem scenario_acmepay :
    (CompanyEnricherTool.run l1demo).industry = "SaaS"
      ∧ (CompanyEnricherTool.run l1demo).employee_count = 75
      ∧ (qualificationScore l1enriched).score = 50
      ∧ 20 ≤ (qualificationScore l1enriched).score
      ∧ (qualificationScore l1enriched).score ≤ 50
      ∧ CRMTool.get (QualificationAgent.score emptyDB emptyMem l1enriched).2.1 "L1" "status"
          = some (.str "nurture") := by
  refine ⟨rfl, rfl, rfl, by decide, by decide, rfl⟩

/-- The output a worker produces for a lead: the lead merged with its
enrichment (`combined = \x7b**lead, **enriched\x7d`). -/
def workerOut (lead : Lead) : Lead := combine lead (CompanyEnricherTool.run lead)

/-- One worker of `OrchestrationAgent.handle_batch`: enrich the lead, append
the enrichment event to the memory bank, put the combined lead on the queue
(modelled by appending to the drained result list). -/
def OrchestrationAgent.workerStep (acc : List Lead × Mem) (lead : Lead) : List Lead × Mem :=
  let e := CompanyEnricherTool.run lead
  (acc.1 ++ [combine lead e], MemoryBank.write acc.2 lead.id (.enriched e))

/-- `OrchestrationAgent.handle_batch`: the workers run concurrently and the
queue is drained after all threads are joined, so the result is the fold of
the worker step over the arrival order of the posted results, which is some
permutation of the input batch (the worker body is a pure function of its
lead). Theorems quantify over that arrival order. -/
def OrchestrationAgent.handle_batch (mem : Mem) (order : List Lead) : List Lead × Mem :=
  order.foldl OrchestrationAgent.workerStep ([], mem)

/-- The drained queue holds exactly the worker outputs in arrival order. -/
theorem handle_batch_fold (order : List Lead) (acc : List Lead × Mem) :
    (order.foldl OrchestrationAgent.workerStep acc).1 = acc.1 ++ order.map workerOut := by
  induction order generalizing acc with
  | nil => simp
  | cons lead rest ih =>
    rw [List.foldl_cons, ih]
    simp [OrchestrationAgent.workerStep, workerOut]

/-- C3: `handle_batch` returns only after every lead's enrichment has been
collected (the result holds the enrichment of every input lead), and for any
arrival order of the worker results the returned collection has exactly one
entry per input lead: its size equals the input size, the output being a
permutation of the per-lead worker outputs. -/
theorem handle_batch_barrier_size (leads order : List Lead) (mem : Mem)
    (h : order.Perm leads) :
    ((OrchestrationAgent.handle_batch mem order).1).length = leads.length
      ∧ ((OrchestrationAgent.handle_batch mem order).1).Perm (leads.map workerOut)
      ∧ ∀ l ∈ leads, workerOut l ∈ (OrchestrationAgent.handle_batch mem order).1 := by
  have hb : (OrchestrationAgent.handle_batch mem order).1 = order.map workerOut := by
    have := handle_batch_fold order ([], mem)
    simpa [OrchestrationAgent.handle_batch] using this
  refine ⟨?_, ?_, ?_⟩
  · rw [hb, List.length_map, h.length_eq]
  · rw [hb]; exact h.map workerOut
  · intro l hl
    rw [hb]
    exact List.mem_map_of_mem workerOut (h.mem_iff.mpr hl)

/-- The demo lead L2 (`core.py` fallback demo data). -/
def l2demo : Lead := { id := "L2", company_name := some "ShopRight", notes := some "" }

/-- C3 witness: the two demo leads arriving in swapped order form a
permutation of the batch, and the returned collection still has size 2. -/
theorem handle_batch_barrier_size_witness :
    ([l2demo, l1demo].Perm [l1demo, l2demo])
      ∧ ((OrchestrationAgent.handle_batch emptyMem [l2demo, l1demo]).1).length = 2 :=
  ⟨List.Perm.swap l1demo l2demo [],
   ((handle_batch_barrier_size [l1demo, l2demo] [l2demo, l1demo] emptyMem
      (List.Perm.swap l1demo l2demo [])).1).trans rfl⟩

/-- A worker when `EnrichmentPort.run` may raise: `handle_batch` wraps the
enricher call in no try/except, so an exception terminates the worker thread
before the memory write and the queue put; `join` still returns and the
queue drain sees nothing from that worker. -/
def OrchestrationAgent.workerStepE (enr : Lead → Except String Enriched)
    (acc : List Lead × Mem) (lead : Lead) : List Lead × Mem :=
  match enr lead with
  | .ok e => (acc.1 ++ [combine lead e], MemoryBank.write acc.2 lead.id (.enriched e))
  | .error _ => acc

/-- `handle_batch` against a fallible enrichment port. -/
def OrchestrationAgent.handle_batchE (enr : Lead → Except String Enriched)
    (mem : Mem) (order : List Lead) : List Lead × Mem :=
  order.foldl (OrchestrationAgent.workerStepE enr) ([], mem)

/-- An enrichment port whose calls always raise. -/
def failEnr : Lead → Except String Enriched := fun _ => .error "boom"

/-- C4 counterexample: with an enricher that raises on L1, the batch of the
single lead L1 returns the empty collection — the failing lead is not
returned with its pre-enrichment fields — and no error marker event is
appended to its memory-bank timeline. -/
theorem handle_batch_failure_drops_lead :
    (OrchestrationAgent.handle_batchE failEnr emptyMem [l1demo]).1 = []
      ∧ (OrchestrationAgent.handle_batchE failEnr emptyMem [l1demo]).2 "L1" = [] :=
  ⟨rfl, rfl⟩

/-- The fold of the fallible worker step keeps exactly the successes. -/
theorem handle_batchE_fold (enr : Lead → Except String Enriched)
    (order : List Lead) (acc : List Lead × Mem) :
    (order.foldl (OrchestrationAgent.workerStepE enr) acc).1
      = acc.1 ++ order.filterMap (fun l => (enr l).toOption.map (combine l)) := by
  induction order generalizing acc with
  | nil => simp
  | cons lead rest ih =>
    rw [List.foldl_cons, ih]
    cases he : enr lead <;>
      simp [OrchestrationAgent.workerStepE, he, Except.toOption]

/-- `Except.toOption` on a success. -/
theorem exceptToOption_ok (a : Enriched) :
    (Except.ok a : Except String Enriched).toOption = some a := rfl

/-- `Except.toOption` on a raised exception. -/
theorem exceptToOption_error (s : String) :
    (Except.error s : Except String Enriched).toOption = none := rfl

/-- The number of successfully enriched leads equals the number of leads
whose enrichment call returns rather than raises. -/
theorem length_filterMap_enr (enr : Lead → Except String Enriched) (order : List Lead) :
    (order.filterMap (fun l => (enr l).toOption.map (combine l))).length
      = order.countP (fun l => (enr l).toOption.isSome) := by
  induction order with
  | nil => rfl
  | cons lead rest ih =>
    cases he : enr lead <;>
      simp [List.filterMap_cons, List.countP_cons, he, exceptToOption_ok, exceptToOption_error, ih]

/-- C4 amended: a per-lead enrichment failure does not abort the batch and
never escapes as an unhandled fault (`handle_batch` still returns a
collection after joining every worker), but the failing lead is silently
dropped: the returned collection consists of exactly the combined leads of
the successful enrichments, so its size is the number of successes. -/
theorem handle_batchE_keeps_successes (enr : Lead → Except String Enriched)
    (mem : Mem) (order : List Lead) :
    (OrchestrationAgent.handle_batchE enr mem order).1
        = order.filterMap (fun l => (enr l).toOption.map (combine l))
      ∧ ((OrchestrationAgent.handle_batchE enr mem order).1).length
        = order.countP (fun l => (enr l).toOption.isSome) := by
  have hb := handle_batchE_fold enr order ([], mem)
  constructor
  · simpa [OrchestrationAgent.handle_batchE] using hb
  · have : (OrchestrationAgent.handle_batchE enr mem order).1
        = order.filterMap (fun l => (enr l).toOption.map (combine l)) := by
      simpa [OrchestrationAgent.handle_batchE] using hb
    rw [this]
    exact length_filterMap_enr enr order

/-- A thread-scheduling action of `handle_batch`: `Thread(...).start()` or
`t.join()`. -/
inductive ThreadAction where
  | start (id : String)
  | join (id : String)
deriving DecidableEq, Repr

/-- The thread schedule `handle_batch` performs: its first loop starts one
thread per lead (appending each to `threads`), and only then does its second
loop join them. -/
def OrchestrationAgent.threadTrace (leads : List Lead) : List ThreadAction :=
  (leads.map fun l => ThreadAction.start l.id) ++ (leads.map fun l => ThreadAction.join l.id)

/-- Running count of in-flight (started, not yet joined) workers together
with the running maximum of that count. -/
def inFlightStep (c : Nat × Nat) (a : ThreadAction) : Nat × Nat :=
  match a with
  | .start _ => (c.1 + 1, max c.2 (c.1 + 1))
  | .join _ => (c.1 - 1, c.2)

/-- The peak number of simultaneously in-flight workers over a schedule. -/
def maxInFlight (trace : List ThreadAction) : Nat :=
  (trace.foldl inFlightStep (0, 0)).2

/-- Folding a run of starts raises the count by its length and, when the
running maximum already dominates the count, records the new count as the
maximum. -/
theorem foldl_inFlight_starts (leads : List Lead) (c m : Nat) (hcm : c ≤ m) :
    (leads.map fun l => ThreadAction.start l.id).foldl inFlightStep (c, m)
      = (c + leads.length, max m (c + leads.length)) := by
  induction leads generalizing c m with
  | nil =>
    simp [Nat.max_eq_left hcm]
  | cons lead rest ih =>
    rw [List.map_cons, List.foldl_cons]
    show (rest.map fun l => ThreadAction.start l.id).foldl inFlightStep
        (c + 1, max m (c + 1)) = _
    rw [ih (c + 1) (max m (c + 1)) (Nat.le_max_right m (c + 1))]
    congr 1 <;> simp only [List.length_cons] <;> omega

/-- Folding a run of joins lowers the count and leaves the maximum alone. -/
theorem foldl_inFlight_joins (leads : List Lead) (c m : Nat) :
    (leads.map fun l => ThreadAction.join l.id).foldl inFlightStep (c, m)
      = (c - leads.length, m) := by
  induction leads generalizing c with
  | nil => simp
  | cons lead rest ih =>
    rw [List.map_cons, List.foldl_cons]
    show (rest.map fun l => ThreadAction.join l.id).foldl inFlightStep (c - 1, m) = _
    rw [ih (c - 1)]
    congr 1
    simp only [List.length_cons]
    omega

/-- C9 amended: `handle_batch` has no worker pool: it starts one thread per
lead before joining any of them, so the peak number of simultaneously
in-flight enrichments equals the batch size — it grows with the batch
instead of being capped by a configurable pool size. -/
theorem handle_batch_in_flight_equals_batch (leads : List Lead) :
    maxInFlight (OrchestrationAgent.threadTrace leads) = leads.length := by
  unfold maxInFlight OrchestrationAgent.threadTrace
  rw [List.foldl_append, foldl_inFlight_starts leads 0 0 (Nat.le_refl 0),
    foldl_inFlight_joins leads]
  omega

/-- A four-lead demo batch. -/
def demo4 : List Lead :=
  [{ id := "A" }, { id := "B" }, { id := "C" }, { id := "D" }]

/-- C9 counterexample: on a concrete four-lead batch all four enrichment
workers are in flight at once — one concurrent task per lead, which is what
the claim says never happens; nothing in `handle_batch` takes or reads a
pool size. -/
theorem handle_batch_no_pool_cap :
    maxInFlight (OrchestrationAgent.threadTrace demo4) = 4 ∧ demo4.length = 4 := by
  constructor <;> rfl

/-- Lifecycle states of a scheduled follow-up (spec vocabulary). -/
inductive FUState where
  | pending
  | fired
  | cancelled
deriving DecidableEq, Repr

/-- The lifecycle transitions `FollowUpScheduler` implements: the daemon
waiter thread started by `schedule` sleeps and then fires. The class defines
no other method touching a scheduled entry, so firing is the only
transition; in particular nothing moves a follow-up to `cancelled`. -/
def FollowUpScheduler.step : FUState → Option FUState
  | .pending => some .fired
  | .fired => none
  | .cancelled => none

/-- The waiter body on firing:
`crm.upsert(lead_id, \x7b"followup_due": True\x7d)` then
`memory.write(lead_id, \x7b"followup": note, ...\x7d)`. -/
def FollowUpScheduler.fireEffect (db : DB) (mem : Mem) (lead_id : String) (note : String) :
    DB × Mem :=
  (CRMTool.upsert db lead_id (fun k => if k = "followup_due" then some (.bool true) else none),
   MemoryBank.write mem lead_id (.followup note))

/-- A `FollowUpScheduler.scheduled` registry entry. -/
structure SchedEntry where
  note : String
  delay : Int
  state : FUState
deriving DecidableEq, Repr

/-- `FollowUpScheduler.schedule`: starts the waiter (entry begins pending),
records the entry under the lead id, and returns the constant `True` — not a
cancellable handle. -/
def FollowUpScheduler.schedule (scheduled : String → Option SchedEntry) (lead_id : String)
    (delay_seconds : Int) (note : String) : Bool × (String → Option SchedEntry) :=
  (true,
   fun j => if j = lead_id then
      some { note := note, delay := delay_seconds, state := .pending }
    else scheduled j)

/-- C5 counterexample: the scheduler the code implements has `pending → fired`
as its only lifecycle transition — the successor of every state is spelled
out below and none is `cancelled`, so no `cancel` transition to a cancelled
state exists — and `schedule` returns the constant `True` rather than a
cancellable handle. -/
theorem followup_no_cancel :
    FollowUpScheduler.step .pending = some .fired
      ∧ FollowUpScheduler.step .fired = none
      ∧ FollowUpScheduler.step .cancelled = none
      ∧ (FollowUpScheduler.schedule (fun _ => none) "L1" 5 "1st follow up").1 = true :=
  ⟨rfl, rfl, rfl, rfl⟩

/-- C5 amended: every scheduled follow-up follows pending → fired (the delay
always elapses; the code offers no cancellation, so `cancelled` is never
entered and the pending → cancelled edge of the claimed state machine does
not exist), and a fired follow-up mutates the stores exactly once: it
appends exactly one followup event for its lead and sets `followup_due`,
after which no further transition fires it again. -/
theorem followup_fires_exactly_once (db : DB) (mem : Mem) (lead_id note : String) :
    FollowUpScheduler.step .pending = some .fired
      ∧ FollowUpScheduler.step .fired = none
      ∧ FollowUpScheduler.step .cancelled = none
      ∧ (FollowUpScheduler.fireEffect db mem lead_id note).2 lead_id
          = mem lead_id ++ [Event.followup note]
      ∧ CRMTool.get (FollowUpScheduler.fireEffect db mem lead_id note).1 lead_id "followup_due"
          = some (.bool true) := by
  refine ⟨rfl, rfl, rfl, ?_, ?_⟩
  · simp [FollowUpScheduler.fireEffect, MemoryBank.write]
  · show CRMTool.get (CRMTool.upsert db lead_id _) lead_id "followup_due" = _
    rw [get_upsert_self]
    rfl

/-- The status `evaluate_predictions` reads for a labeled id:
`crm.get(lead_id).get("status", "nurture")`. -/
def predictedStatus (db : DB) (lead_id : String) : Value :=
  (CRMTool.get db lead_id "status").getD (Value.str "nurture")

/-- `predicted=="qualified" and label=="qualified"`. -/
def isTP (db : DB) (p : String × String) : Bool :=
  decide (predictedStatus db p.1 = Value.str "qualified" ∧ p.2 = "qualified")

/-- `predicted=="qualified" and label!="qualified"`. -/
def isFP (db : DB) (p : String × String) : Bool :=
  decide (predictedStatus db p.1 = Value.str "qualified" ∧ ¬ p.2 = "qualified")

/-- `predicted!="qualified" and label!="qualified"`. -/
def isTN (db : DB) (p : String × String) : Bool :=
  decide (¬ predictedStatus db p.1 = Value.str "qualified" ∧ ¬ p.2 = "qualified")

/-- `predicted!="qualified" and label=="qualified"`. -/
def isFN (db : DB) (p : String × String) : Bool :=
  decide (¬ predictedStatus db p.1 = Value.str "qualified" ∧ p.2 = "qualified")

/-- The loop body of `evaluate_predictions`: the four independent `if`
statements incrementing `(tp, fp, tn, fn)`. -/
def classifyStep (db : DB) (c : Nat × Nat × Nat × Nat) (p : String × String) :
    Nat × Nat × Nat × Nat :=
  let c := if predictedStatus db p.1 = Value.str "qualified" ∧ p.2 = "qualified"
    then (c.1 + 1, c.2.1, c.2.2.1, c.2.2.2) else c
  let c := if predictedStatus db p.1 = Value.str "qualified" ∧ ¬ p.2 = "qualified"
    then (c.1, c.2.1 + 1, c.2.2.1, c.2.2.2) else c
  let c := if ¬ predictedStatus db p.1 = Value.str "qualified" ∧ ¬ p.2 = "qualified"
    then (c.1, c.2.1, c.2.2.1 + 1, c.2.2.2) else c
  let c := if ¬ predictedStatus db p.1 = Value.str "qualified" ∧ p.2 = "qualified"
    then (c.1, c.2.1, c.2.2.1, c.2.2.2 + 1) else c
  c

/-- `evaluate_predictions` return value. Python `float` division is modelled
over `ℚ`; the guarded quotients involved are exact. -/
structure EvalResult where
  precision : ℚ
  recallVal : ℚ
  tp : Nat
  fp : Nat
  tn : Nat
  fn : Nat
deriving DecidableEq, Repr

/-- `evaluate_predictions`: fold the classification loop over the labeled
mapping, then the guarded precision/recall quotients. -/
def evaluate_predictions (db : DB) (labeled : List (String × String)) : EvalResult :=
  let c := labeled.foldl (classifyStep db) (0, 0, 0, 0)
  { precision := if c.1 + c.2.1 > 0 then (c.1 : ℚ) / ((c.1 : ℚ) + (c.2.1 : ℚ)) else 0
    recallVal := if c.1 + c.2.2.2 > 0 then (c.1 : ℚ) / ((c.1 : ℚ) + (c.2.2.2 : ℚ)) else 0
    tp := c.1
    fp := c.2.1
    tn := c.2.2.1
    fn := c.2.2.2 }

/-- The classification fold counts each confusion-matrix cell. -/
theorem foldl_classify (db : DB) (labeled : List (String × String))
    (c : Nat × Nat × Nat × Nat) :
    labeled.foldl (classifyStep db) c
      = (c.1 + labeled.countP (isTP db), c.2.1 + labeled.countP (isFP db),
         c.2.2.1 + labeled.countP (isTN db), c.2.2.2 + labeled.countP (isFN db)) := by
  induction labeled generalizing c with
  | nil => simp
  | cons p rest ih =>
    rw [List.foldl_cons, ih]
    by_cases h1 : predictedStatus db p.1 = Value.str "qualified" <;>
      by_cases h2 : p.2 = "qualified" <;>
        simp [classifyStep, isTP, isFP, isTN, isFN, h1, h2, List.countP_cons] <;>
          omega

/-- Each labeled pair lands in exactly one confusion-matrix cell. -/
theorem countP_classify_total (db : DB) (labeled : List (String × String)) :
    labeled.countP (isTP db) + labeled.countP (isFP db) + labeled.countP (isTN db)
      + labeled.countP (isFN db) = labeled.length := by
  induction labeled with
  | nil => rfl
  | cons p rest ih =>
    by_cases h1 : predictedStatus db p.1 = Value.str "qualified" <;>
      by_cases h2 : p.2 = "qualified" <;>
        simp [isTP, isFP, isTN, isFN, h1, h2, List.countP_cons] <;>
          omega

/-- A guard on a positive denominator equals the spec's guard on a zero
denominator with the branches exchanged. -/
theorem guard_gt_eq_guard_eq (a : Nat) (q : ℚ) :
    (if a > 0 then q else 0) = (if a = 0 then 0 else q) := by
  rcases Nat.eq_zero_or_pos a with h | h
  · simp [h]
  · rw [if_pos h, if_neg (Nat.pos_iff_ne_zero.mp h)]

/-- C7: `evaluate_predictions` classifies each labeled id by the id's current
CRM status (defaulting to `"nurture"` when the id or the key is absent):
each cell of the returned confusion matrix counts exactly the labeled pairs
matching its predicate, precision is tp/(tp+fp) with 0 when tp+fp = 0,
recall is tp/(tp+fn) with 0 when tp+fn = 0, and the empty labeled mapping
yields precision 0, recall 0, and an all-zero matrix. -/
theorem evaluate_predictions_spec (db : DB) (labeled : List (String × String)) :
    (evaluate_predictions db labeled).tp = labeled.countP (isTP db)
      ∧ (evaluate_predictions db labeled).fp = labeled.countP (isFP db)
      ∧ (evaluate_predictions db labeled).tn = labeled.countP (isTN db)
      ∧ (evaluate_predictions db labeled).fn = labeled.countP (isFN db)
      ∧ (evaluate_predictions db labeled).precision =
          (if (evaluate_predictions db labeled).tp + (evaluate_predictions db labeled).fp = 0
            then 0
            else ((evaluate_predictions db labeled).tp : ℚ)
              / (((evaluate_predictions db labeled).tp : ℚ)
                + ((evaluate_predictions db labeled).fp : ℚ)))
      ∧ (evaluate_predictions db labeled).recallVal =
          (if (evaluate_predictions db labeled).tp + (evaluate_predictions db labeled).fn = 0
            then 0
            else ((evaluate_predictions db labeled).tp : ℚ)
              / (((evaluate_predictions db labeled).tp : ℚ)
                + ((evaluate_predictions db labeled).fn : ℚ)))
      ∧ evaluate_predictions db []
          = { precision := 0, recallVal := 0, tp := 0, fp := 0, tn := 0, fn := 0 } := by
  have hc := foldl_classify db labeled (0, 0, 0, 0)
  refine ⟨?_, ?_, ?_, ?_, ?_, ?_, rfl⟩ <;>
    simp only [evaluate_predictions, hc, Nat.zero_add] <;>
      first
        | rfl
        | exact guard_gt_eq_guard_eq _ _

/-- C10: every labeled id is counted in exactly one confusion-matrix cell,
so the four cells sum to the size of the labeled mapping. -/
theorem confusion_matrix_total (db : DB) (labeled : List (String × String)) :
    (evaluate_predictions db labeled).tp + (evaluate_predictions db labeled).fp
      + (evaluate_predictions db labeled).tn + (evaluate_predictions db labeled).fn
      = labeled.length := by
  have hc := foldl_classify db labeled (0, 0, 0, 0)
  simp only [evaluate_predictions, hc]
  simpa using countP_classify_total db labeled
